import Mathlib

/-!
Verification of the catcher-synthesis core: a shallow embedding of the
DSL AST model (src/BUS/BUS_DSL.py) and of the simulated-annealing driver
(src/SA/sim_anneal.py), with theorems settling the specification claims.
-/

/-! ## Simulated annealing: cooling schedule and acceptance
    Embeds SimulatedAnnealing.reduce_temp and SimulatedAnnealing.is_accept
    (src/SA/sim_anneal.py lines 133-140) together with the constants set in
    synthesize (alpha = 0.9, beta = 100, lines 198-199). -/

/-- The cooling coefficient `self.alpha = 0.9` set in synthesize. -/
def alphaSA : ℚ := 9 / 10

/-- The acceptance coefficient `self.beta = 100` set in synthesize. -/
def betaSA : ℝ := 100

/-- `reduce_temp(current_t, epoch) = current_t / (1 + self.alpha * epoch)`. -/
def reduceTemp (currentT : ℚ) (epoch : ℕ) : ℚ :=
  currentT / (1 + alphaSA * epoch)

/-- The acceptance threshold computed inside `is_accept`:
    `min(1, exp(j_diff * (self.beta / temp)))`. -/
noncomputable def acceptThreshold (jDiff temp : ℝ) : ℝ :=
  min 1 (Real.exp (jDiff * (betaSA / temp)))

/-- `is_accept(j_diff, temp)` returns True exactly when the uniform sample
    `rand` satisfies `rand < min(1, exp(j_diff * (beta / temp)))`. -/
def isAccept (jDiff temp rand : ℝ) : Prop :=
  rand < acceptThreshold jDiff temp

/-- The full acceptance decision of the cooling loop (line 314):
    `j_diff > 0 or self.is_accept(j_diff, current_t)`. -/
def acceptDecision (jDiff temp rand : ℝ) : Prop :=
  0 < jDiff ∨ isAccept jDiff temp rand

/-- C5: a non-negative score delta is always accepted (the threshold is 1 and
    the uniform sample is below 1); for a negative delta the threshold is
    exactly `exp(jDiff * beta / temp)`, which is below 1; and for a fixed
    negative delta the threshold strictly decreases as the temperature
    decreases. -/
theorem accept_probability_c5 :
    (∀ jDiff temp rand : ℝ, 0 ≤ jDiff → 0 < temp → rand < 1 →
      acceptDecision jDiff temp rand) ∧
    (∀ jDiff temp : ℝ, jDiff < 0 → 0 < temp →
      acceptThreshold jDiff temp = Real.exp (jDiff * (betaSA / temp)) ∧
      acceptThreshold jDiff temp < 1) ∧
    (∀ jDiff t1 t2 : ℝ, jDiff < 0 → 0 < t1 → t1 < t2 →
      acceptThreshold jDiff t1 < acceptThreshold jDiff t2) := by
  have hbeta : (0 : ℝ) < betaSA := by norm_num [betaSA]
  refine ⟨?_, ?_, ?_⟩
  · intro jDiff temp rand hj ht hr
    right
    have hexp : (1 : ℝ) ≤ Real.exp (jDiff * (betaSA / temp)) := by
      rw [show (1 : ℝ) = Real.exp 0 by simp]
      exact Real.exp_le_exp.mpr (mul_nonneg hj (le_of_lt (div_pos hbeta ht)))
    unfold isAccept acceptThreshold
    rw [min_eq_left hexp]
    exact hr
  · intro jDiff temp hj ht
    have hexp : Real.exp (jDiff * (betaSA / temp)) < 1 := by
      rw [show (1 : ℝ) = Real.exp 0 by simp]
      exact Real.exp_lt_exp.mpr (mul_neg_of_neg_of_pos hj (div_pos hbeta ht))
    constructor
    · exact min_eq_right (le_of_lt hexp)
    · unfold acceptThreshold
      rw [min_eq_right (le_of_lt hexp)]
      exact hexp
  · intro jDiff t1 t2 hj h1 h12
    have h2 : (0 : ℝ) < t2 := lt_trans h1 h12
    have hdiv : betaSA / t2 < betaSA / t1 := div_lt_div_of_pos_left hbeta h1 h12
    have hmul : jDiff * (betaSA / t1) < jDiff * (betaSA / t2) := by
      have := mul_lt_mul_of_neg_left hdiv hj
      linarith
    have hexp1 : Real.exp (jDiff * (betaSA / t1)) < 1 := by
      rw [show (1 : ℝ) = Real.exp 0 by simp]
      exact Real.exp_lt_exp.mpr (mul_neg_of_neg_of_pos hj (div_pos hbeta h1))
    have hexp2 : Real.exp (jDiff * (betaSA / t2)) < 1 := by
      rw [show (1 : ℝ) = Real.exp 0 by simp]
      exact Real.exp_lt_exp.mpr (mul_neg_of_neg_of_pos hj (div_pos hbeta h2))
    unfold acceptThreshold
    rw [min_eq_right (le_of_lt hexp1), min_eq_right (le_of_lt hexp2)]
    exact Real.exp_lt_exp.mpr hmul

/-- C5 witness: the three parts of the acceptance theorem instantiated at
    concrete inputs (delta 0 at temperature 1 with sample 0, and delta -1 at
    temperatures 1 < 2). -/
theorem accept_probability_c5_witness :
    acceptDecision 0 1 0 ∧
    acceptThreshold (-1) 1 < 1 ∧
    acceptThreshold (-1) 1 < acceptThreshold (-1) 2 := by
  refine ⟨accept_probability_c5.1 0 1 0 (by norm_num) (by norm_num) (by norm_num),
    (accept_probability_c5.2.1 (-1) 1 (by norm_num) (by norm_num)).2,
    accept_probability_c5.2.2 (-1) 1 2 (by norm_num) (by norm_num) (by norm_num)⟩

/-- C6 counterexample: at the first pass of the cooling loop the epoch index
    is 0, and `reduce_temp(t, 0) = t / (1 + 0.9 * 0) = t`: the temperature is
    not strictly decreased, refuting the claim that every epoch index produced
    by the loop strictly lowers the temperature. -/
theorem reduce_temp_epoch_zero_counterexample : reduceTemp 2 0 = 2 := by
  norm_num [reduceTemp, alphaSA]

/-- C6 (amended): `reduce_temp(t, 0) = t` (the first cooling call leaves the
    temperature unchanged), and for every positive temperature and every
    epoch index >= 1 the temperature strictly decreases. -/
theorem reduce_temp_strict_decrease_c6 :
    (∀ t : ℚ, reduceTemp t 0 = t) ∧
    (∀ (t : ℚ) (epoch : ℕ), 0 < t → 1 ≤ epoch → reduceTemp t epoch < t) := by
  constructor
  · intro t
    norm_num [reduceTemp, alphaSA]
  · intro t epoch ht he
    unfold reduceTemp alphaSA
    have hcast : (1 : ℚ) ≤ (epoch : ℚ) := by exact_mod_cast he
    have hden : (1 : ℚ) < 1 + 9 / 10 * epoch := by nlinarith
    exact div_lt_self ht hden

/-- C6 witness: at temperature 2 and epoch 1 the cooled temperature is
    strictly below 2. -/
theorem reduce_temp_strict_decrease_c6_witness :
    reduceTemp 2 0 = 2 ∧ reduceTemp 2 1 < 2 :=
  ⟨reduce_temp_strict_decrease_c6.1 2,
   reduce_temp_strict_decrease_c6.2 2 1 (by norm_num) (by norm_num)⟩

/-! ## BUS DSL AST model (src/BUS/BUS_DSL.py)
    One inductive constructor per concrete Node subclass. `nullNode` models
    the Python value None, which appears as a Strategy continuation and in
    the bank set that Strategy.grow substitutes for a missing cost-0 level.
    Constant values are modelled over the integral points of the grammar's
    constant range; Python renders an int value v as str(v), matching the
    rendering of a natural number. -/

inductive DNode where
  | constant (value : ℕ)
  | returnAction (action : DNode)
  | it (condition ifBody : DNode)
  | ite (condition ifBody elseBody : DNode)
  | playerPosition
  | fallingFruitPosition
  | varScalar (name : String)
  | varFromArray (name : String) (index : DNode)
  | lessThan (left right : DNode)
  | greaterThan (left right : DNode)
  | equalTo (left right : DNode)
  | plus (left right : DNode)
  | times (left right : DNode)
  | minus (left right : DNode)
  | divide (left right : DNode)
  | strategy (statement nextStatements : DNode)
  | nullNode
  deriving DecidableEq

/-- The `size` attribute as computed by each class's `__init__`:
    leaves set `size = 1`, composite nodes set `1 +` the children's sizes --
    except `Strategy.__init__` (lines 674-683), which sets
    `size = statement.getSize() (+ next_statements.getSize())` with no `1 +`.
    None (`nullNode`) contributes nothing. -/
def nsize : DNode → ℕ
  | .constant _ => 1
  | .returnAction a => 1 + nsize a
  | .it c b => 1 + nsize c + nsize b
  | .ite c b e => 1 + nsize c + nsize b + nsize e
  | .playerPosition => 1
  | .fallingFruitPosition => 1
  | .varScalar _ => 1
  | .varFromArray _ ix => 1 + nsize ix
  | .lessThan l r => 1 + nsize l + nsize r
  | .greaterThan l r => 1 + nsize l + nsize r
  | .equalTo l r => 1 + nsize l + nsize r
  | .plus l r => 1 + nsize l + nsize r
  | .times l r => 1 + nsize l + nsize r
  | .minus l r => 1 + nsize l + nsize r
  | .divide l r => 1 + nsize l + nsize r
  | .strategy s nxt => nsize s + nsize nxt
  | .nullNode => 0

/-- `className()` of each variant (`type(None).__name__` for None). -/
def classNameOf : DNode → String
  | .constant _ => "Constant"
  | .returnAction _ => "ReturnAction"
  | .it _ _ => "IT"
  | .ite _ _ _ => "ITE"
  | .playerPosition => "PlayerPosition"
  | .fallingFruitPosition => "FallingFruitPosition"
  | .varScalar _ => "VarScalar"
  | .varFromArray _ _ => "VarFromArray"
  | .lessThan _ _ => "LessThan"
  | .greaterThan _ _ => "GreaterThan"
  | .equalTo _ _ => "EqualTo"
  | .plus _ _ => "Plus"
  | .times _ _ => "Times"
  | .minus _ _ => "Minus"
  | .divide _ _ => "Divide"
  | .strategy _ _ => "Strategy"
  | .nullNode => "NoneType"

/-- The indentation prefix built by `toString`: `indent` tab characters. -/
def tabsOf (indent : ℕ) : String :=
  String.mk (List.replicate indent '\t')

/-- `toString(indent)` of each variant, following each class's f-string.
    Child renderings use the default `indent = 0`, as in the source. -/
def toStr : DNode → ℕ → String
  | .constant v, _ => Nat.repr v
  | .returnAction a, _ => "return " ++ toStr a 0
  | .it c b, indent =>
      tabsOf indent ++ "if " ++ toStr c 0 ++ ":\n" ++ tabsOf indent ++ "\t" ++ toStr b 0
  | .ite c b e, indent =>
      tabsOf indent ++ "if " ++ toStr c 0 ++ ":\n" ++ tabsOf indent ++ "\t" ++ toStr b 0 ++ "\n" ++
        tabsOf indent ++ "else:\n" ++ tabsOf indent ++ "\t" ++ toStr e 0
  | .playerPosition, _ => "PlayerPosition"
  | .fallingFruitPosition, _ => "FallingFruitPosition"
  | .varScalar n, _ => n
  | .varFromArray n ix, _ => n ++ "[" ++ toStr ix 0 ++ "]"
  | .lessThan l r, _ => toStr l 0 ++ " < " ++ toStr r 0
  | .greaterThan l r, _ => toStr l 0 ++ " > " ++ toStr r 0
  | .equalTo l r, _ => toStr l 0 ++ " == " ++ toStr r 0
  | .plus l r, _ => "(" ++ toStr l 0 ++ " + " ++ toStr r 0 ++ ")"
  | .times l r, _ => "(" ++ toStr l 0 ++ " * " ++ toStr r 0 ++ ")"
  | .minus l r, _ => "(" ++ toStr l 0 ++ " - " ++ toStr r 0 ++ ")"
  | .divide l r, _ => "(" ++ toStr l 0 ++ " // " ++ toStr r 0 ++ ")"
  | .strategy s nxt, _ =>
      toStr s 0 ++ "\n" ++ (if nxt = .nullNode then "" else toStr nxt 0)
  | .nullNode, _ => "None"

/-- The semantic children stored by each constructor (condition, bodies,
    operands, continuation); `nullNode` stands for an absent (None) child. -/
def childrenOf : DNode → List DNode
  | .constant _ => []
  | .returnAction a => [a]
  | .it c b => [c, b]
  | .ite c b e => [c, b, e]
  | .playerPosition => []
  | .fallingFruitPosition => []
  | .varScalar _ => []
  | .varFromArray _ ix => [ix]
  | .lessThan l r => [l, r]
  | .greaterThan l r => [l, r]
  | .equalTo l r => [l, r]
  | .plus l r => [l, r]
  | .times l r => [l, r]
  | .minus l r => [l, r]
  | .divide l r => [l, r]
  | .strategy s nxt => [s, nxt]
  | .nullNode => []

/-- Sum of the children's sizes (None children have size 0, so this equals
    the sum over non-null children). -/
def sumChildSizes (n : DNode) : ℕ :=
  ((childrenOf n).map nsize).sum

/-- Whether a node is a Strategy. -/
def isStrategyNode : DNode → Bool
  | .strategy _ _ => true
  | _ => false

/-- C1 counterexample: a Strategy node built by `Strategy.__init__` from a
    minimal IT statement has size 7, but 1 plus the sum of its non-null
    children's sizes is 8: the size invariant fails on the Strategy variant
    because its constructor omits the leading `1 +`. -/
theorem strategy_size_invariant_counterexample :
    nsize (DNode.strategy
      (DNode.it (DNode.lessThan DNode.playerPosition DNode.fallingFruitPosition)
        (DNode.returnAction (DNode.varFromArray "actions" (DNode.constant 0))))
      DNode.nullNode) = 7 ∧
    1 + sumChildSizes (DNode.strategy
      (DNode.it (DNode.lessThan DNode.playerPosition DNode.fallingFruitPosition)
        (DNode.returnAction (DNode.varFromArray "actions" (DNode.constant 0))))
      DNode.nullNode) = 8 := by
  decide

/-- C1 (amended): for every variant except Strategy the constructor
    establishes `size = 1 + Σ child.size` over non-null children; a Strategy
    node's size is instead exactly the sum of its children's sizes, with no
    `1 +` term. -/
theorem size_invariant_c1 (n : DNode) (h : n ≠ DNode.nullNode) :
    nsize n = (if isStrategyNode n then 0 else 1) + sumChildSizes n := by
  cases n <;> simp [nsize, sumChildSizes, childrenOf, isStrategyNode] at h ⊢ <;> omega

/-- C1 witness: the amended invariant evaluated on an IT node and on a
    Strategy chain. -/
theorem size_invariant_c1_witness :
    (DNode.it (DNode.lessThan DNode.playerPosition DNode.fallingFruitPosition)
        (DNode.returnAction (DNode.varFromArray "actions" (DNode.constant 0))) ≠
      DNode.nullNode) ∧
    nsize (DNode.it (DNode.lessThan DNode.playerPosition DNode.fallingFruitPosition)
        (DNode.returnAction (DNode.varFromArray "actions" (DNode.constant 0)))) =
      (if isStrategyNode (DNode.it
          (DNode.lessThan DNode.playerPosition DNode.fallingFruitPosition)
          (DNode.returnAction (DNode.varFromArray "actions" (DNode.constant 0)))) then 0 else 1) +
        sumChildSizes (DNode.it
          (DNode.lessThan DNode.playerPosition DNode.fallingFruitPosition)
          (DNode.returnAction (DNode.varFromArray "actions" (DNode.constant 0)))) :=
  ⟨by decide, size_invariant_c1 _ (by decide)⟩

/-! ## Node.add_child (src/BUS/BUS_DSL.py lines 32-38) -/

/-- The mutable per-node bookkeeping fields touched by `Node.add_child`. -/
structure NodeState where
  size : ℕ
  currentChildNum : ℕ
  maxNumberChildren : ℕ
  children : List DNode
  deriving DecidableEq

/-- `add_child(child)`: asserts `len(self.children) + 1 < self.max_number_children`
    (returning none models an AssertionError), then appends the child,
    increments the child count, and adds the child's size when the child is
    not None (`nsize nullNode = 0`, so the unconditional sum coincides). -/
def addChild (st : NodeState) (child : DNode) : Option NodeState :=
  if st.children.length + 1 < st.maxNumberChildren then
    some { st with children := st.children ++ [child],
                   currentChildNum := st.currentChildNum + 1,
                   size := st.size + nsize child }
  else
    Option.none

/-- C2: `add_child` rejects a child although the node is strictly below its
    arity. A node of arity 1 (as every ReturnAction is) with no children
    fails the assertion `0 + 1 < 1`, and a node of arity 2 holding one child
    fails `1 + 1 < 2`; the assertion `len(children) + 1 < max_number_children`
    is an off-by-one for the intended arity ceiling (complete_program in
    src/SA/sim_anneal.py fills every one of the `max_number_children` slots
    through add_child), so a node with arity k can receive at most k - 1
    children. -/
theorem add_child_below_arity_rejected_c2 :
    addChild { size := 1, currentChildNum := 0, maxNumberChildren := 1,
               children := [] } (DNode.constant 0) = Option.none ∧
    addChild { size := 4, currentChildNum := 1, maxNumberChildren := 2,
               children := [DNode.playerPosition] } (DNode.constant 0) = Option.none ∧
    addChild { size := 1, currentChildNum := 0, maxNumberChildren := 2,
               children := [] } (DNode.constant 0) =
      some { size := 2, currentChildNum := 1, maxNumberChildren := 2,
             children := [DNode.constant 0] } := by
  decide

/-! ## The program bank and the grow enumerators -/

/-- One cost level of the bank: the per-variant (class-name keyed) ordered
    collections of already built programs, in dict insertion order. -/
abbrev ProgSet : Type := List (String × List DNode)

/-- The cost-indexed program bank (`plist`); `bankGet` is `plist.get(cost)`,
    yielding none for an absent cost level. -/
abbrev Bank : Type := List (ℕ × ProgSet)

/-- `plist.get(cost)`: the first entry at the given cost, if any. -/
def bankGet (b : Bank) (cost : ℕ) : Option ProgSet :=
  List.lookup cost b

/-- Operand class-name allow-list of LessThan/GreaterThan/EqualTo.grow. -/
def validNodesCmp : List String :=
  ["PlayerPosition", "FallingFruitPosition", "Plus", "Minus", "Divide",
   "Times", "Constant"]

/-- Operand class-name allow-list of Plus/Times/Minus/Divide.grow. -/
def validNodesArith : List String :=
  ["VarScalar", "PlayerPosition", "FallingFruitPosition", "Constant",
   "Times", "Minus", "Plus", "Divide"]

/-- The programs one `(cost[0], cost[1])` combination contributes in a binary
    grow method: both cost levels are looked up, a missing level skips the
    combination, and each type-valid operand pair is passed to the variant's
    emit step (its structural-pruning guard plus constructor). -/
def pairContribBinary (valid : List String) (emit : DNode → DNode → List DNode)
    (b : Bank) (c0 c1 : ℕ) : List DNode :=
  match bankGet b c0, bankGet b c1 with
  | some set1, some set2 =>
    set1.flatMap fun tp1 =>
      if tp1.1 ∈ valid then
        tp1.2.flatMap fun left =>
          set2.flatMap fun tp2 =>
            if tp2.1 ∈ valid then
              tp2.2.flatMap fun right => emit left right
            else []
      else []
  | _, _ => []

/-- The loop skeleton shared by the binary grow methods:
    `itertools.product(range(psize-1), repeat=2)` filtered by
    `cost[0] + cost[1] + 1 == psize`. -/
def growBinary (valid : List String) (emit : DNode → DNode → List DNode)
    (b : Bank) (psize : ℕ) : List DNode :=
  (List.range (psize - 1)).flatMap fun c0 =>
    (List.range (psize - 1)).flatMap fun c1 =>
      if c0 + c1 + 1 = psize then pairContribBinary valid emit b c0 c1 else []

/-- `Plus.grow` (lines 495-520): rejects either operand rendering '0'. -/
def growPlus (b : Bank) (psize : ℕ) : List DNode :=
  growBinary validNodesArith
    (fun l r => if toStr l 0 ≠ "0" ∧ toStr r 0 ≠ "0" then [DNode.plus l r] else [])
    b psize

/-- `Minus.grow` (lines 593-618): rejects identical renderings and a right
    operand rendering '0' -- the left operand is not tested against '0'. -/
def growMinus (b : Bank) (psize : ℕ) : List DNode :=
  growBinary validNodesArith
    (fun l r => if toStr l 0 ≠ toStr r 0 ∧ toStr r 0 ≠ "0" then [DNode.minus l r] else [])
    b psize

/-- `Divide.grow` (lines 640-666): rejects either operand rendering '0' and
    identical renderings. -/
def growDivide (b : Bank) (psize : ℕ) : List DNode :=
  growBinary validNodesArith
    (fun l r =>
      if toStr r 0 ≠ "0" ∧ toStr l 0 ≠ "0" then
        if toStr l 0 ≠ toStr r 0 then [DNode.divide l r] else []
      else [])
    b psize

/-- `LessThan.grow` (lines 351-377): rejects identical renderings. -/
def growLessThan (b : Bank) (psize : ℕ) : List DNode :=
  growBinary validNodesCmp
    (fun l r => if toStr l 0 ≠ toStr r 0 then [DNode.lessThan l r] else [])
    b psize

/-- `GreaterThan.grow` (lines 400-426): rejects identical renderings. -/
def growGreaterThan (b : Bank) (psize : ℕ) : List DNode :=
  growBinary validNodesCmp
    (fun l r => if toStr l 0 ≠ toStr r 0 then [DNode.greaterThan l r] else [])
    b psize

/-- `EqualTo.grow` (lines 448-474): rejects identical renderings. -/
def growEqualTo (b : Bank) (psize : ℕ) : List DNode :=
  growBinary validNodesCmp
    (fun l r => if toStr l 0 ≠ toStr r 0 then [DNode.equalTo l r] else [])
    b psize

/-- Condition class-name allow-list of IT.grow and ITE.grow. -/
def validDsbs : List String := ["LessThan", "GreaterThan", "EqualTo"]

/-- Body class-name allow-list of IT.grow and ITE.grow. -/
def validReturn : List String := ["ReturnAction"]

/-- The programs one `(cost[0], cost[1])` combination contributes in
    `IT.grow` (lines 157-184): a missing level skips the combination. -/
def pairContribIT (b : Bank) (c0 c1 : ℕ) : List DNode :=
  match bankGet b c0, bankGet b c1 with
  | some set1, some set2 =>
    set1.flatMap fun tp1 =>
      if tp1.1 ∈ validDsbs then
        tp1.2.flatMap fun ifCond =>
          set2.flatMap fun tp2 =>
            if tp2.1 ∈ validReturn then
              tp2.2.map fun ifBody => DNode.it ifCond ifBody
            else []
      else []
  | _, _ => []

/-- `IT.grow(plist, psize)`: `itertools.product(range(psize-1), repeat=2)`
    filtered by `cost[0] + cost[1] + 1 == psize`. -/
def growIT (b : Bank) (psize : ℕ) : List DNode :=
  (List.range (psize - 1)).flatMap fun c0 =>
    (List.range (psize - 1)).flatMap fun c1 =>
      if c0 + c1 + 1 = psize then pairContribIT b c0 c1 else []

/-- The programs one `(cost[0], cost[1], cost[2])` combination contributes in
    `ITE.grow` (lines 221-252): a missing level skips the combination. -/
def tripleContribITE (b : Bank) (c0 c1 c2 : ℕ) : List DNode :=
  match bankGet b c0, bankGet b c1, bankGet b c2 with
  | some set1, some set2, some set3 =>
    set1.flatMap fun tp1 =>
      if tp1.1 ∈ validDsbs then
        tp1.2.flatMap fun ifCond =>
          set2.flatMap fun tp2 =>
            if tp2.1 ∈ validReturn then
              tp2.2.flatMap fun ifBody =>
                set3.flatMap fun tp3 =>
                  if tp3.1 ∈ validReturn then
                    tp3.2.map fun elseBody => DNode.ite ifCond ifBody elseBody
                  else []
            else []
      else []
  | _, _, _ => []

/-- `ITE.grow(plist, psize)`: `itertools.product(range(psize-1), repeat=3)`
    filtered by `cost[0] + cost[1] + cost[2] + 1 == psize`. -/
def growITE (b : Bank) (psize : ℕ) : List DNode :=
  (List.range (psize - 1)).flatMap fun c0 =>
    (List.range (psize - 1)).flatMap fun c1 =>
      (List.range (psize - 1)).flatMap fun c2 =>
        if c0 + c1 + c2 + 1 = psize then tripleContribITE b c0 c1 c2 else []

/-- First-statement class-name allow-list of Strategy.grow. -/
def validFirstStatement : List String := ["IT", "ITE"]

/-- Next-statements class-name allow-list of Strategy.grow
    (`type(None).__name__` is "NoneType"). -/
def validNextStatements : List String := ["Strategy", "ReturnAction", "NoneType"]

/-- The next-statements program set used by `Strategy.grow` (lines 708-712):
    when `cost[1] == 0` and the bank has no level 0, the set
    `{NoneType: [None]}` is substituted instead of skipping. -/
def strategyNextSet (b : Bank) (c1 : ℕ) : Option ProgSet :=
  match bankGet b c1 with
  | some s => some s
  | Option.none => if c1 = 0 then some [("NoneType", [DNode.nullNode])] else Option.none

/-- The programs one `(cost[0], cost[1])` combination contributes in
    `Strategy.grow` (lines 699-726). -/
def pairContribStrategy (b : Bank) (c0 c1 : ℕ) : List DNode :=
  match bankGet b c0, strategyNextSet b c1 with
  | some set1, some set2 =>
    set1.flatMap fun tp1 =>
      if tp1.1 ∈ validFirstStatement then
        tp1.2.flatMap fun statement =>
          set2.flatMap fun tp2 =>
            if tp2.1 ∈ validNextStatements then
              tp2.2.map fun nexts => DNode.strategy statement nexts
            else []
      else []
  | _, _ => []

/-- `Strategy.grow(plist, psize)`: `itertools.product(range(psize+1), repeat=2)`
    filtered by `cost[0] + cost[1] == psize` (the Strategy node itself is not
    charged). -/
def growStrategy (b : Bank) (psize : ℕ) : List DNode :=
  (List.range (psize + 1)).flatMap fun c0 =>
    (List.range (psize + 1)).flatMap fun c1 =>
      if c0 + c1 = psize then pairContribStrategy b c0 c1 else []

/-- Membership in a conditionally empty list. -/
theorem mem_ite_nil {α : Type} {c : Prop} [Decidable c] {l : List α} {x : α} :
    x ∈ (if c then l else []) ↔ c ∧ x ∈ l := by
  split <;> simp_all

/-- Every program a binary grow method yields comes from its emit step. -/
theorem mem_growBinary {valid : List String} {emit : DNode → DNode → List DNode}
    {b : Bank} {psize : ℕ} {p : DNode} (h : p ∈ growBinary valid emit b psize) :
    ∃ l r, p ∈ emit l r := by
  unfold growBinary at h
  simp only [List.mem_flatMap, mem_ite_nil, List.mem_range] at h
  obtain ⟨c0, -, c1, -, -, hmem⟩ := h
  unfold pairContribBinary at hmem
  split at hmem
  · simp only [List.mem_flatMap, mem_ite_nil] at hmem
    obtain ⟨tp1, -, -, l, -, tp2, -, -, r, -, hp⟩ := hmem
    exact ⟨l, r, hp⟩
  · simp at hmem

/-- C3 counterexample: from a bank whose cost-1 level holds the constants 0
    and 1, `Minus.grow` at target cost 3 yields `(0 - 1)`, a Minus node whose
    left operand renders as the literal '0' -- Minus.grow only tests the
    right operand against '0', refuting the claim that neither operand of a
    grown Minus renders as '0'. -/
theorem minus_left_zero_counterexample :
    growMinus [(1, [("Constant", [DNode.constant 0, DNode.constant 1])])] 3 =
      [DNode.minus (DNode.constant 0) (DNode.constant 1)] ∧
    toStr (DNode.constant 0) 0 = "0" := by
  decide

/-- C3 (amended): nodes yielded by Plus.grow and Divide.grow have no operand
    rendering '0'; nodes yielded by Minus.grow have a right operand not
    rendering '0' (the left operand may render '0') and operands with
    distinct renderings; nodes yielded by Divide.grow and the binary
    comparisons' grow have operands with distinct renderings. -/
theorem grow_pruning_c3 :
    (∀ (b : Bank) (s : ℕ) (p : DNode), p ∈ growPlus b s →
      ∃ l r, p = DNode.plus l r ∧ toStr l 0 ≠ "0" ∧ toStr r 0 ≠ "0") ∧
    (∀ (b : Bank) (s : ℕ) (p : DNode), p ∈ growDivide b s →
      ∃ l r, p = DNode.divide l r ∧ toStr l 0 ≠ "0" ∧ toStr r 0 ≠ "0" ∧
        toStr l 0 ≠ toStr r 0) ∧
    (∀ (b : Bank) (s : ℕ) (p : DNode), p ∈ growMinus b s →
      ∃ l r, p = DNode.minus l r ∧ toStr l 0 ≠ toStr r 0 ∧ toStr r 0 ≠ "0") ∧
    (∀ (b : Bank) (s : ℕ) (p : DNode), p ∈ growLessThan b s →
      ∃ l r, p = DNode.lessThan l r ∧ toStr l 0 ≠ toStr r 0) ∧
    (∀ (b : Bank) (s : ℕ) (p : DNode), p ∈ growGreaterThan b s →
      ∃ l r, p = DNode.greaterThan l r ∧ toStr l 0 ≠ toStr r 0) ∧
    (∀ (b : Bank) (s : ℕ) (p : DNode), p ∈ growEqualTo b s →
      ∃ l r, p = DNode.equalTo l r ∧ toStr l 0 ≠ toStr r 0) := by
  refine ⟨?_, ?_, ?_, ?_, ?_, ?_⟩
  · intro b s p h
    obtain ⟨l, r, hp⟩ := mem_growBinary h
    rw [mem_ite_nil] at hp
    obtain ⟨⟨h1, h2⟩, hmem⟩ := hp
    simp only [List.mem_singleton] at hmem
    exact ⟨l, r, hmem, h1, h2⟩
  · intro b s p h
    obtain ⟨l, r, hp⟩ := mem_growBinary h
    rw [mem_ite_nil] at hp
    obtain ⟨⟨h1, h2⟩, hmem⟩ := hp
    rw [mem_ite_nil] at hmem
    obtain ⟨h3, hmem⟩ := hmem
    simp only [List.mem_singleton] at hmem
    exact ⟨l, r, hmem, h2, h1, h3⟩
  · intro b s p h
    obtain ⟨l, r, hp⟩ := mem_growBinary h
    rw [mem_ite_nil] at hp
    obtain ⟨⟨h1, h2⟩, hmem⟩ := hp
    simp only [List.mem_singleton] at hmem
    exact ⟨l, r, hmem, h1, h2⟩
  · intro b s p h
    obtain ⟨l, r, hp⟩ := mem_growBinary h
    rw [mem_ite_nil] at hp
    obtain ⟨h1, hmem⟩ := hp
    simp only [List.mem_singleton] at hmem
    exact ⟨l, r, hmem, h1⟩
  · intro b s p h
    obtain ⟨l, r, hp⟩ := mem_growBinary h
    rw [mem_ite_nil] at hp
    obtain ⟨h1, hmem⟩ := hp
    simp only [List.mem_singleton] at hmem
    exact ⟨l, r, hmem, h1⟩
  · intro b s p h
    obtain ⟨l, r, hp⟩ := mem_growBinary h
    rw [mem_ite_nil] at hp
    obtain ⟨h1, hmem⟩ := hp
    simp only [List.mem_singleton] at hmem
    exact ⟨l, r, hmem, h1⟩

/-- C3 witness: the Minus clause of the pruning theorem applied to the
    concrete program `(0 - 1)` grown from a bank holding the constants 0
    and 1 at cost 1. -/
theorem grow_pruning_c3_witness :
    ∃ l r, DNode.minus (DNode.constant 0) (DNode.constant 1) = DNode.minus l r ∧
      toStr l 0 ≠ toStr r 0 ∧ toStr r 0 ≠ "0" :=
  grow_pruning_c3.2.2.1 [(1, [("Constant", [DNode.constant 0, DNode.constant 1])])] 3
    (DNode.minus (DNode.constant 0) (DNode.constant 1)) (by decide)

/-- A minimal IT statement: `if PlayerPosition < FallingFruitPosition:
    return actions[0]`. -/
def itMinimal : DNode :=
  DNode.it (DNode.lessThan DNode.playerPosition DNode.fallingFruitPosition)
    (DNode.returnAction (DNode.varFromArray "actions" (DNode.constant 0)))

/-- A bank holding a single IT program at cost 3 and nothing else; in
    particular its cost-0 level is absent. -/
def bankITOnly : Bank := [(3, [("IT", [itMinimal])])]

/-- The two-argument bank lookup `plist.get(cost, type)` used by
    `ReturnAction.grow` (line 120): the programs of the given class name at
    the given cost, or nothing when either the cost level or the type entry
    is absent. -/
def bankGetType (b : Bank) (cost : ℕ) (tname : String) : Option (List DNode) :=
  match bankGet b cost with
  | some s => List.lookup tname s
  | Option.none => Option.none

/-- `ReturnAction.grow(plist, psize)` (lines 117-126): every VarFromArray
    program of cost `psize - 1` is wrapped in a ReturnAction; a missing
    lookup (`programs is None`) yields nothing. -/
def growReturnAction (b : Bank) (psize : ℕ) : List DNode :=
  match bankGetType b (psize - 1) "VarFromArray" with
  | some programs => programs.map fun p => DNode.returnAction p
  | Option.none => []

/-- The programs one `(cost[0], cost[1])` combination adds to the running
    `nplist` accumulator in `Times.grow` (lines 541-572): a missing level
    leaves the accumulator unchanged; otherwise each type-valid operand pair
    is appended unless the swapped-operand rendering was already emitted
    during this call (the commutative dedup). -/
def pairContribTimesAcc (b : Bank) (c0 c1 : ℕ) (acc : List DNode) : List DNode :=
  match bankGet b c0, bankGet b c1 with
  | some set1, some set2 =>
    set1.foldl
      (fun accA tp1 =>
        if tp1.1 ∈ validNodesArith then
          tp1.2.foldl
            (fun accB left =>
              set2.foldl
                (fun accC tp2 =>
                  if tp2.1 ∈ validNodesArith then
                    tp2.2.foldl
                      (fun accD right =>
                        if accD.any
                            (fun p => toStr p 0 == toStr (DNode.times right left) 0) then
                          accD
                        else accD ++ [DNode.times left right])
                      accC
                  else accC)
                accB)
            accA
        else accA)
      acc
  | _, _ => acc

/-- `Times.grow(plist, psize)`: the cost-pair loop threading the `nplist`
    accumulator; the yielded sequence is the final accumulator. -/
def growTimes (b : Bank) (psize : ℕ) : List DNode :=
  (List.range (psize - 1)).foldl
    (fun acc c0 =>
      (List.range (psize - 1)).foldl
        (fun acc2 c1 =>
          if c0 + c1 + 1 = psize then pairContribTimesAcc b c0 c1 acc2 else acc2)
        acc)
    []

/-- A fold whose step never changes the accumulator returns it unchanged. -/
theorem foldl_const {α β : Type} (f : α → β → α) (h : ∀ (a : α) (x : β), f a x = a) :
    ∀ (l : List β) (acc : α), List.foldl f acc l = acc := by
  intro l
  induction l with
  | nil => intro acc; rfl
  | cons x xs ih => intro acc; rw [List.foldl_cons, h, ih]

/-- C9 counterexample: with a bank whose cost-0 level is absent,
    `Strategy.grow` does not skip the `(3, 0)` cost combination: it
    substitutes the set `{NoneType: [None]}` for the missing level and yields
    a chain-terminating Strategy, refuting the claim that every variant's
    grow contributes zero programs for a combination with a missing level. -/
theorem strategy_missing_level_counterexample :
    bankGet bankITOnly 0 = Option.none ∧
    growStrategy bankITOnly 3 = [DNode.strategy itMinimal DNode.nullNode] := by
  decide

/-- C9 (amended): every variant's grow except Strategy.grow skips a cost
    combination whose required smaller-cost level is absent, contributing
    zero programs and raising no error -- the six binary operator and
    comparison grows through their shared loop skeleton, IT.grow and
    ITE.grow through their per-combination lookups, Times.grow by passing
    its dedup accumulator through unchanged (so a bank with no levels yields
    nothing), and ReturnAction.grow by yielding nothing when the cost
    `psize - 1` lookup is empty -- and each still yields exactly the
    contributions of the cost combinations whose levels are all present
    (membership characterizations for the binary skeleton, IT, ITE and
    ReturnAction). Strategy.grow also skips a missing first-statement level
    and a missing non-zero next-statements level, but substitutes the set
    `{NoneType: [None]}` for a missing next-statements level at cost 0,
    which still contributes programs. -/
theorem grow_missing_level_c9 :
    (∀ (valid : List String) (emit : DNode → DNode → List DNode) (b : Bank)
        (c0 c1 : ℕ),
      bankGet b c0 = Option.none ∨ bankGet b c1 = Option.none →
      pairContribBinary valid emit b c0 c1 = []) ∧
    (∀ (valid : List String) (emit : DNode → DNode → List DNode) (b : Bank)
        (psize : ℕ) (p : DNode),
      p ∈ growBinary valid emit b psize ↔
        ∃ c0 c1, c0 < psize - 1 ∧ c1 < psize - 1 ∧ c0 + c1 + 1 = psize ∧
          p ∈ pairContribBinary valid emit b c0 c1) ∧
    (∀ (b : Bank) (c0 c1 : ℕ),
      bankGet b c0 = Option.none ∨ bankGet b c1 = Option.none →
      pairContribIT b c0 c1 = []) ∧
    (∀ (b : Bank) (c0 c1 c2 : ℕ),
      bankGet b c0 = Option.none ∨ bankGet b c1 = Option.none ∨
        bankGet b c2 = Option.none →
      tripleContribITE b c0 c1 c2 = []) ∧
    (∀ (b : Bank) (psize : ℕ) (p : DNode),
      p ∈ growIT b psize ↔
        ∃ c0 c1, c0 < psize - 1 ∧ c1 < psize - 1 ∧ c0 + c1 + 1 = psize ∧
          p ∈ pairContribIT b c0 c1) ∧
    (∀ (b : Bank) (psize : ℕ) (p : DNode),
      p ∈ growITE b psize ↔
        ∃ c0 c1 c2, c0 < psize - 1 ∧ c1 < psize - 1 ∧ c2 < psize - 1 ∧
          c0 + c1 + c2 + 1 = psize ∧ p ∈ tripleContribITE b c0 c1 c2) ∧
    (∀ (b : Bank) (c0 c1 : ℕ) (acc : List DNode),
      bankGet b c0 = Option.none ∨ bankGet b c1 = Option.none →
      pairContribTimesAcc b c0 c1 acc = acc) ∧
    (∀ (b : Bank) (psize : ℕ), (∀ c, bankGet b c = Option.none) →
      growTimes b psize = []) ∧
    (∀ (b : Bank) (psize : ℕ), bankGet b (psize - 1) = Option.none →
      growReturnAction b psize = []) ∧
    (∀ (b : Bank) (psize : ℕ) (p : DNode),
      p ∈ growReturnAction b psize ↔
        ∃ ps, bankGetType b (psize - 1) "VarFromArray" = some ps ∧
          ∃ q ∈ ps, p = DNode.returnAction q) ∧
    (∀ (b : Bank) (c0 c1 : ℕ), bankGet b c0 = Option.none →
      pairContribStrategy b c0 c1 = []) ∧
    (∀ (b : Bank) (c0 c1 : ℕ), c1 ≠ 0 → bankGet b c1 = Option.none →
      pairContribStrategy b c0 c1 = []) := by
  have hTimesSkip : ∀ (b : Bank) (c0 c1 : ℕ) (acc : List DNode),
      bankGet b c0 = Option.none ∨ bankGet b c1 = Option.none →
      pairContribTimesAcc b c0 c1 acc = acc := by
    intro b c0 c1 acc h
    cases hc0 : bankGet b c0 <;> cases hc1 : bankGet b c1 <;>
      simp_all [pairContribTimesAcc]
  refine ⟨?_, ?_, ?_, ?_, ?_, ?_, hTimesSkip, ?_, ?_, ?_, ?_, ?_⟩
  · intro valid emit b c0 c1 h
    cases hc0 : bankGet b c0 <;> cases hc1 : bankGet b c1 <;>
      simp_all [pairContribBinary]
  · intro valid emit b psize p
    constructor
    · intro h
      simp only [growBinary, List.mem_flatMap, List.mem_range, mem_ite_nil] at h
      obtain ⟨c0, h0, c1, h1, hsum, hmem⟩ := h
      exact ⟨c0, c1, h0, h1, hsum, hmem⟩
    · rintro ⟨c0, c1, h0, h1, hsum, hmem⟩
      simp only [growBinary, List.mem_flatMap, List.mem_range, mem_ite_nil]
      exact ⟨c0, h0, c1, h1, hsum, hmem⟩
  · intro b c0 c1 h
    cases hc0 : bankGet b c0 <;> cases hc1 : bankGet b c1 <;>
      simp_all [pairContribIT]
  · intro b c0 c1 c2 h
    cases hc0 : bankGet b c0 <;> cases hc1 : bankGet b c1 <;>
      cases hc2 : bankGet b c2 <;> simp_all [tripleContribITE]
  · intro b psize p
    constructor
    · intro h
      simp only [growIT, List.mem_flatMap, List.mem_range, mem_ite_nil] at h
      obtain ⟨c0, h0, c1, h1, hsum, hmem⟩ := h
      exact ⟨c0, c1, h0, h1, hsum, hmem⟩
    · rintro ⟨c0, c1, h0, h1, hsum, hmem⟩
      simp only [growIT, List.mem_flatMap, List.mem_range, mem_ite_nil]
      exact ⟨c0, h0, c1, h1, hsum, hmem⟩
  · intro b psize p
    constructor
    · intro h
      simp only [growITE, List.mem_flatMap, List.mem_range, mem_ite_nil] at h
      obtain ⟨c0, h0, c1, h1, c2, h2, hsum, hmem⟩ := h
      exact ⟨c0, c1, c2, h0, h1, h2, hsum, hmem⟩
    · rintro ⟨c0, c1, c2, h0, h1, h2, hsum, hmem⟩
      simp only [growITE, List.mem_flatMap, List.mem_range, mem_ite_nil]
      exact ⟨c0, h0, c1, h1, c2, h2, hsum, hmem⟩
  · intro b psize hall
    unfold growTimes
    apply foldl_const
    intro a c0
    apply foldl_const
    intro a2 c1
    split
    · exact hTimesSkip b c0 c1 a2 (Or.inl (hall c0))
    · rfl
  · intro b psize h
    simp [growReturnAction, bankGetType, h]
  · intro b psize p
    constructor
    · intro hp
      rcases hbt : bankGetType b (psize - 1) "VarFromArray" with _ | ps
      · simp [growReturnAction, hbt] at hp
      · simp only [growReturnAction, hbt, List.mem_map] at hp
        obtain ⟨q, hq, hpq⟩ := hp
        exact ⟨ps, rfl, q, hq, hpq.symm⟩
    · rintro ⟨ps, hps, q, hq, hpq⟩
      simp only [growReturnAction, hps, List.mem_map]
      exact ⟨q, hq, hpq.symm⟩
  · intro b c0 c1 h
    cases hs : strategyNextSet b c1 <;> simp_all [pairContribStrategy]
  · intro b c0 c1 h1 h2
    have hs : strategyNextSet b c1 = Option.none := by
      simp [strategyNextSet, h1, h2]
    cases hc0 : bankGet b c0 <;> simp_all [pairContribStrategy]

/-- C9 witness: the skip behaviour of each grow family evaluated on the
    empty bank, where every cost level is missing. -/
theorem grow_missing_level_c9_witness :
    pairContribBinary validNodesArith (fun l r => [DNode.plus l r]) [] 0 1 = [] ∧
    pairContribIT [] 0 1 = [] ∧
    growTimes [] 5 = [] ∧
    growReturnAction [] 3 = [] ∧
    pairContribStrategy [] 0 1 = [] :=
  ⟨grow_missing_level_c9.1 validNodesArith (fun l r => [DNode.plus l r]) [] 0 1
      (Or.inl (by decide)),
   grow_missing_level_c9.2.2.1 [] 0 1 (Or.inl (by decide)),
   grow_missing_level_c9.2.2.2.2.2.2.2.1 [] 5 (fun c => rfl),
   grow_missing_level_c9.2.2.2.2.2.2.2.2.1 [] 3 (by decide),
   grow_missing_level_c9.2.2.2.2.2.2.2.2.2.2.2 [] 0 1 (by decide) (by decide)⟩

/-! ## Sentinel-score bookkeeping of synthesize (src/SA/sim_anneal.py)
    The score-tracking events of the synthesize driver under option 1:
    `restartInit` is the evaluation of a freshly generated restart program
    (lines 241-246: `if best is None or current_eval > best_eval` followed by
    the guarded dictionary recordings of lines 259-266), and `candidate` is
    the evaluation of a mutated program in the cooling loop (line 282 guards
    scores_dict; lines 299-303 update best and record best_pscore_dict inside
    the strict comparison). Programs are identified by an abstract id; the
    recorded dictionary values are modelled as the lists of recorded scores. -/

/-- The sentinel score -1_000_000 denoting a failed evaluation. -/
def sentinelScore : ℤ := -1000000

/-- A scoring event seen by the driver's bookkeeping. -/
inductive SAEvent where
  | restartInit (pid : ℕ) (score : ℤ)
  | candidate (pid : ℕ) (score : ℤ)
  deriving DecidableEq

/-- The score carried by an event. -/
def SAEvent.score : SAEvent → ℤ
  | .restartInit _ s => s
  | .candidate _ s => s

/-- The driver's bookkeeping state: the best program/score pair and the
    score values recorded into scores_dict and best_pscore_dict. -/
structure SAState where
  best : ℕ × ℤ
  scoresRec : List ℤ
  bestRec : List ℤ
  deriving DecidableEq

/-- The state after the very first evaluation of option 1: `best is None`,
    so `best, best_eval = current, current_eval` unconditionally (line 245),
    and both dictionary recordings are sentinel-guarded (lines 262-266). -/
def initSAState (pid : ℕ) (score : ℤ) : SAState :=
  { best := (pid, score),
    scoresRec := if score ≠ sentinelScore then [score] else [],
    bestRec := if score ≠ sentinelScore then [score] else [] }

/-- One bookkeeping step of the driver. In a restart initialisation the
    best-score recording uses the updated `best_eval` (line 265-266). -/
def stepSA (st : SAState) (e : SAEvent) : SAState :=
  match e with
  | .restartInit pid s =>
    if st.best.2 < s then
      { best := (pid, s),
        scoresRec := st.scoresRec ++ (if s ≠ sentinelScore then [s] else []),
        bestRec := st.bestRec ++ (if s ≠ sentinelScore then [s] else []) }
    else
      { best := st.best,
        scoresRec := st.scoresRec ++ (if s ≠ sentinelScore then [s] else []),
        bestRec := st.bestRec ++
          (if st.best.2 ≠ sentinelScore then [st.best.2] else []) }
  | .candidate pid s =>
    if st.best.2 < s then
      { best := (pid, s),
        scoresRec := st.scoresRec ++ (if s ≠ sentinelScore then [s] else []),
        bestRec := st.bestRec ++ [s] }
    else
      { best := st.best,
        scoresRec := st.scoresRec ++ (if s ≠ sentinelScore then [s] else []),
        bestRec := st.bestRec }

/-- The driver's bookkeeping over a whole run: the first evaluation followed
    by the remaining scoring events. -/
def runSA (pid : ℕ) (score : ℤ) (evs : List SAEvent) : SAState :=
  evs.foldl stepSA (initSAState pid score)

/-- The best score never decreases across a bookkeeping step. -/
theorem stepSA_best_mono (st : SAState) (e : SAEvent) :
    st.best.2 ≤ (stepSA st e).best.2 := by
  cases e <;> simp only [stepSA] <;> split <;> simp_all <;> omega

/-- The best score never decreases across a run segment. -/
theorem foldlSA_best_mono (st : SAState) (evs : List SAEvent) :
    st.best.2 ≤ (evs.foldl stepSA st).best.2 := by
  induction evs generalizing st with
  | nil => simp
  | cons e rest ih =>
    exact le_trans (stepSA_best_mono st e) (ih (stepSA st e))

/-- A non-sentinel event (with all scores at least the sentinel) pushes the
    best score strictly above the sentinel. -/
theorem stepSA_nonsentinel (st : SAState) (e : SAEvent)
    (hb : sentinelScore ≤ st.best.2) (he : sentinelScore ≤ e.score)
    (hne : e.score ≠ sentinelScore) : sentinelScore < (stepSA st e).best.2 := by
  have hgt : sentinelScore < e.score := lt_of_le_of_ne he (Ne.symm hne)
  cases e with
  | restartInit pid s =>
    simp only [SAEvent.score] at hgt
    simp only [stepSA]
    split <;> simp <;> omega
  | candidate pid s =>
    simp only [SAEvent.score] at hgt
    simp only [stepSA]
    split <;> simp <;> omega

/-- The bookkeeping invariant: neither recorded list contains the sentinel
    and the best score is at least the sentinel. -/
def SAStateInv (st : SAState) : Prop :=
  sentinelScore ∉ st.scoresRec ∧ sentinelScore ∉ st.bestRec ∧
    sentinelScore ≤ st.best.2

/-- One step preserves the bookkeeping invariant when the event's score is at
    least the sentinel. -/
theorem stepSA_inv (st : SAState) (e : SAEvent) (hinv : SAStateInv st)
    (he : sentinelScore ≤ e.score) : SAStateInv (stepSA st e) := by
  obtain ⟨h1, h2, h3⟩ := hinv
  have hg : ∀ s : ℤ, sentinelScore ∉ (if s ≠ sentinelScore then [s] else ([] : List ℤ)) := by
    intro s
    split <;> simp_all
    omega
  cases e with
  | restartInit pid s =>
    simp only [SAEvent.score] at he
    simp only [SAStateInv, stepSA]
    split <;> refine ⟨?_, ?_, ?_⟩ <;>
      simp_all [List.mem_append, hg s, hg st.best.2]
  | candidate pid s =>
    simp only [SAEvent.score] at he
    simp only [SAStateInv, stepSA]
    split <;> refine ⟨?_, ?_, ?_⟩ <;>
      simp_all [List.mem_append, hg s] <;> omega

/-- The invariant is preserved along any run segment whose events' scores
    are at least the sentinel. -/
theorem foldlSA_inv (st : SAState) (evs : List SAEvent) (hinv : SAStateInv st)
    (he : ∀ e ∈ evs, sentinelScore ≤ e.score) :
    SAStateInv (evs.foldl stepSA st) := by
  induction evs generalizing st with
  | nil => exact hinv
  | cons e rest ih =>
    exact ih (stepSA st e) (stepSA_inv st e hinv (he e (by simp)))
      (fun x hx => he x (by simp [hx]))

/-- After any event with a non-sentinel score, the best score stays strictly
    above the sentinel for the rest of the run segment. -/
theorem foldlSA_nonsentinel (st : SAState) (evs : List SAEvent)
    (hb : sentinelScore ≤ st.best.2)
    (he : ∀ e ∈ evs, sentinelScore ≤ e.score)
    (hex : ∃ e ∈ evs, e.score ≠ sentinelScore) :
    sentinelScore < (evs.foldl stepSA st).best.2 := by
  induction evs generalizing st with
  | nil => simp at hex
  | cons e rest ih =>
    by_cases hne : e.score = sentinelScore
    · obtain ⟨x, hx, hxs⟩ := hex
      rcases List.mem_cons.mp hx with hxe | hxr
      · exact absurd (hxe ▸ hxs) (by simp [hne])
      · exact ih (stepSA st e)
          (le_trans hb (stepSA_best_mono st e))
          (fun y hy => he y (by simp [hy]))
          ⟨x, hxr, hxs⟩
    · have hstep := stepSA_nonsentinel st e hb (he e (by simp)) hne
      exact lt_of_lt_of_le hstep (foldlSA_best_mono (stepSA st e) rest)

/-- C4 counterexample: under option 1 the very first generated program is
    recorded as best unconditionally (`best is None` in line 245), even when
    its evaluation returned the sentinel: after an initial sentinel-scored
    evaluation the best-so-far pair carries the sentinel score, refuting the
    claim that a sentinel-scored candidate is never recorded as best. -/
theorem sentinel_recorded_best_counterexample :
    (runSA 0 sentinelScore []).best = (0, sentinelScore) ∧
    (runSA 0 sentinelScore []).scoresRec = [] ∧
    (runSA 0 sentinelScore []).bestRec = [] := by
  decide

/-- C4 (amended): provided every evaluation returns at least the sentinel,
    a sentinel score never enters scores_dict or best_pscore_dict, and the
    best score never drops below the sentinel; a sentinel-scored candidate
    never displaces best through the strict comparisons of lines 245 and 299,
    but the very first evaluated program becomes best even when
    sentinel-scored, so best is sentinel-scored exactly until some
    non-sentinel evaluation occurs: as soon as the first evaluation or any
    later event carries a non-sentinel score, the final best score is not the
    sentinel. -/
theorem sentinel_handling_c4 (p0 : ℕ) (s0 : ℤ) (evs : List SAEvent)
    (h0 : sentinelScore ≤ s0) (he : ∀ e ∈ evs, sentinelScore ≤ e.score) :
    sentinelScore ∉ (runSA p0 s0 evs).scoresRec ∧
    sentinelScore ∉ (runSA p0 s0 evs).bestRec ∧
    sentinelScore ≤ (runSA p0 s0 evs).best.2 ∧
    ((s0 ≠ sentinelScore ∨ ∃ e ∈ evs, e.score ≠ sentinelScore) →
      (runSA p0 s0 evs).best.2 ≠ sentinelScore) := by
  have hinv0 : SAStateInv (initSAState p0 s0) := by
    refine ⟨?_, ?_, ?_⟩ <;> simp only [initSAState] <;>
      first
        | (split <;> simp_all
           omega)
        | exact h0
  have hinv := foldlSA_inv (initSAState p0 s0) evs hinv0 he
  obtain ⟨hA, hB, hC⟩ := hinv
  refine ⟨hA, hB, hC, ?_⟩
  intro hsome
  rcases hsome with hne0 | hex
  · have hbase : sentinelScore < (initSAState p0 s0).best.2 :=
      lt_of_le_of_ne h0 (by simpa [initSAState] using Ne.symm hne0)
    have := foldlSA_best_mono (initSAState p0 s0) evs
    simp only [runSA]
    omega
  · have := foldlSA_nonsentinel (initSAState p0 s0) evs
      (by simpa [initSAState] using h0) he hex
    simp only [runSA]
    omega

/-- C4 witness: a run whose first evaluation is sentinel-scored followed by
    one non-sentinel candidate; bookkeeping stays sentinel-free and the final
    best score is not the sentinel. -/
theorem sentinel_handling_c4_witness :
    sentinelScore ∉ (runSA 0 sentinelScore [SAEvent.candidate 1 5]).scoresRec ∧
    sentinelScore ∉ (runSA 0 sentinelScore [SAEvent.candidate 1 5]).bestRec ∧
    sentinelScore ≤ (runSA 0 sentinelScore [SAEvent.candidate 1 5]).best.2 ∧
    ((sentinelScore ≠ sentinelScore ∨
        ∃ e ∈ [SAEvent.candidate 1 5], e.score ≠ sentinelScore) →
      (runSA 0 sentinelScore [SAEvent.candidate 1 5]).best.2 ≠ sentinelScore) :=
  sentinel_handling_c4 0 sentinelScore [SAEvent.candidate 1 5] (by decide)
    (by decide)

/-! ## The node model used by the annealing driver
    sim_anneal.py works on the node classes of the module src/dsl, which is
    not part of the sources here; only its callers are. The structural
    metadata below (kinds, arities, grammar-valid slot types, sizes, initial
    productions) is therefore modelled from the specification, while
    get_terminal_node, complete_program, generate_random and mutate are
    embedded from src/SA/sim_anneal.py itself. -/

/-- Modelled from the spec: the variant kinds of the src/dsl node classes
    (spec section 3, Variants), which mirror the BUS_DSL classes. -/
inductive NKind where
  | strategy
  | it
  | ite
  | returnAction
  | lessThan
  | greaterThan
  | equalTo
  | plus
  | minus
  | times
  | divide
  | playerPosition
  | fallingFruitPosition
  | varScalar
  | varFromArray
  | constant
  deriving DecidableEq

/-- Modelled from the spec: `get_max_number_children()` of each src/dsl
    variant. Unlike in BUS_DSL, complete_program fills value slots of
    VarScalar, VarFromArray and Constant through the same slot loop, so those
    variants count their raw-value slots here (VarFromArray draws an array
    name and an index, per init_var_child_types in sim_anneal.py line 143). -/
def arity : NKind → ℕ
  | .strategy => 2
  | .it => 2
  | .ite => 3
  | .returnAction => 1
  | .lessThan => 2
  | .greaterThan => 2
  | .equalTo => 2
  | .plus => 2
  | .minus => 2
  | .times => 2
  | .divide => 2
  | .playerPosition => 0
  | .fallingFruitPosition => 0
  | .varScalar => 1
  | .varFromArray => 2
  | .constant => 1

/-- A tree of src/dsl nodes as built by the driver: an inner node with up to
    three child slots (`pad` fills the slots beyond the kind's arity), a raw
    non-Node child value (an array name, index, scalar name or constant,
    abstracted to a natural id), or the Python value None used for an absent
    Strategy continuation. -/
inductive STree where
  | node (k : NKind) (c1 c2 c3 : STree)
  | leafVal (v : ℕ)
  | noneChild
  | pad
  deriving DecidableEq

/-- Modelled from the spec: `get_size()` -- every node costs 1 plus its
    children; raw values and None contribute nothing (spec section 3: leaves
    cost 1, `size == 1 + sum of child sizes over non-null children`). -/
def sizeT : STree → ℕ
  | .node _ a b c => 1 + sizeT a + sizeT b + sizeT c
  | _ => 0

/-- A grammar-valid entry for one child slot: a node type, a raw value drawn
    from the grammar's value sets, or None. -/
inductive SlotTy where
  | sKind (k : NKind)
  | sVal (v : ℕ)
  | sNone
  deriving DecidableEq

/-- The grammar configuration handed to init_var_child_types
    (sim_anneal.py lines 142-145): permissible arrays, array indexes,
    scalars and constants, abstracted to natural ids. -/
structure Grammar where
  arrays : List ℕ
  arrayIndexes : List ℕ
  scalars : List ℕ
  constants : List ℕ
  deriving DecidableEq

/-- Modelled from the spec: comparison-operand node types (spec section 4.2:
    position readers, arithmetic nodes or constants, as in the BUS_DSL
    comparison allow-list). -/
def cmpOperands : List SlotTy :=
  [.sKind .playerPosition, .sKind .fallingFruitPosition, .sKind .plus,
   .sKind .minus, .sKind .divide, .sKind .times, .sKind .constant]

/-- Modelled from the spec: arithmetic-operand node types (as in the BUS_DSL
    arithmetic allow-list, including VarScalar). -/
def arithOperands : List SlotTy :=
  [.sKind .varScalar, .sKind .playerPosition, .sKind .fallingFruitPosition,
   .sKind .constant, .sKind .times, .sKind .minus, .sKind .plus, .sKind .divide]

/-- Modelled from the spec: `get_valid_children_types()` of each variant --
    the grammar-valid entries of each child slot, in a fixed order standing
    for Python's set iteration order. Value slots are seeded from the grammar
    configuration as in init_var_child_types (lines 142-145). -/
def validSlots (g : Grammar) : NKind → List (List SlotTy)
  | .strategy =>
      [[.sKind .it, .sKind .ite],
       [.sKind .strategy, .sKind .returnAction, .sNone]]
  | .it =>
      [[.sKind .lessThan, .sKind .greaterThan, .sKind .equalTo],
       [.sKind .returnAction]]
  | .ite =>
      [[.sKind .lessThan, .sKind .greaterThan, .sKind .equalTo],
       [.sKind .returnAction], [.sKind .returnAction]]
  | .returnAction => [[.sKind .varFromArray]]
  | .lessThan => [cmpOperands, cmpOperands]
  | .greaterThan => [cmpOperands, cmpOperands]
  | .equalTo => [cmpOperands, cmpOperands]
  | .plus => [arithOperands, arithOperands]
  | .minus => [arithOperands, arithOperands]
  | .times => [arithOperands, arithOperands]
  | .divide => [arithOperands, arithOperands]
  | .playerPosition => []
  | .fallingFruitPosition => []
  | .varScalar => [g.scalars.map .sVal]
  | .varFromArray => [g.arrays.map .sVal, g.arrayIndexes.map .sVal]
  | .constant => [g.constants.map .sVal]

/-- `get_valid_children_types()[i]` for slot `i`. -/
def slotTypes (g : Grammar) (k : NKind) (i : ℕ) : List SlotTy :=
  (validSlots g k).getD i []

/-- `random.choice` over a slot-type list, driven by an explicit oracle of
    naturals: the head of the oracle picks the element index. -/
def chooseFrom (l : List SlotTy) (o : List ℕ) : SlotTy × List ℕ :=
  (l.getD (o.headD 0 % l.length) SlotTy.sNone, o.tail)

/-- `Node.instance` applied to one chosen slot entry: a node type yields a
    fresh childless instance, a raw value yields itself, None yields None. -/
def instChild : SlotTy → STree
  | .sKind k => .node k .pad .pad .pad
  | .sVal v => .leafVal v
  | .sNone => .noneChild

/-- `isinstance(p, VarScalar) or isinstance(p, VarFromArray) or
    isinstance(p, Constant)` (complete_program line 65). -/
def isValueKind : NKind → Bool
  | .varScalar => true
  | .varFromArray => true
  | .constant => true
  | _ => false

/-- The terminal test of get_terminal_node (lines 41-43): the entry is None,
    or its class name is VarFromArray, VarScalar or Constant, or the fresh
    instance has no child slots. A raw value never passes this test (it is
    not one of the listed class names; this case is unreachable because
    get_terminal_node is only called for slots of non-value kinds). -/
def isTerminalChoice : SlotTy → Bool
  | .sNone => true
  | .sKind k =>
      (match k with
       | .varFromArray => true
       | .varScalar => true
       | .constant => true
       | _ => arity k == 0)
  | .sVal _ => false

/-- `get_terminal_node(p, valid_ith_child_types)` (lines 32-55). The source's
    `if terminal_nodes == 0:` compares a list against the integer 0, which is
    always False in Python, so the fallback block that would collect
    single-child node types is dead code and is omitted here. When no
    terminal-compatible entry exists, a random entry of the full slot list is
    instantiated instead (line 55). -/
def getTerminalNode (g : Grammar) (k : NKind) (i : ℕ) (o : List ℕ) :
    STree × List ℕ :=
  let slots := slotTypes g k i
  let terminals := slots.filter (fun st => isTerminalChoice st)
  if 0 < terminals.length then
    let (st, o') := chooseFrom terminals o
    (instChild st, o')
  else
    let (st, o') := chooseFrom slots o
    (instChild st, o')

/-- What happens to one open child slot of `p` inside complete_program
    (lines 61-79): either a finished child (a raw value, None, or a childless
    terminal) or a fresh node instance of some kind that must itself be
    completed one level deeper. -/
inductive ChildPlan where
  | done (t : STree)
  | descend (k : NKind)

/-- The slot body of complete_program (lines 61-79) for slot `i` of a node of
    kind `k` whose current partial size is `curSize`: a value kind draws the
    raw child directly; once `depth >= max_depth` or the size bound is hit, a
    terminal node is drawn via get_terminal_node and then completed; otherwise
    a random grammar-valid child is instantiated and completed. -/
def planChild (g : Grammar) (k : NKind) (i : ℕ)
    (depth maxD maxS curSize : ℕ) (o : List ℕ) : ChildPlan × List ℕ :=
  if isValueKind k then
    let (st, o') := chooseFrom (slotTypes g k i) o
    (.done (instChild st), o')
  else if maxD ≤ depth ∨ maxS ≤ curSize then
    let (t, o') := getTerminalNode g k i o
    match t with
    | .node k2 _ _ _ => (.descend k2, o')
    | other => (.done other, o')
  else
    let (st, o') := chooseFrom (slotTypes g k i) o
    match st with
    | .sKind k2 => (.descend k2, o')
    | .sVal v => (.done (.leafVal v), o')
    | .sNone => (.done .noneChild, o')

/-- `complete_program(p, depth, max_depth, max_size)` (lines 57-79) on a
    fresh instance of kind `k`: every slot up to the kind's arity is filled
    in order, descending one level for each child that is itself a node. The
    structural fuel only bounds the recursion depth of the embedding; it is
    irrelevant on runs it does not truncate. -/
def completeProgram (g : Grammar) :
    ℕ → NKind → ℕ → ℕ → ℕ → List ℕ → STree × List ℕ
  | 0, k, _, _, _, o => (.node k .pad .pad .pad, o)
  | Nat.succ f, k, depth, maxD, maxS, o =>
    if 1 ≤ arity k then
      let (c1, o1) :=
        match planChild g k 0 depth maxD maxS 1 o with
        | (.done t, oD) => (t, oD)
        | (.descend k2, oD) => completeProgram g f k2 (depth + 1) maxD maxS oD
      if 2 ≤ arity k then
        let (c2, o2) :=
          match planChild g k 1 depth maxD maxS (1 + sizeT c1) o1 with
          | (.done t, oD) => (t, oD)
          | (.descend k2, oD) => completeProgram g f k2 (depth + 1) maxD maxS oD
        if 3 ≤ arity k then
          let (c3, o3) :=
            match planChild g k 2 depth maxD maxS (1 + sizeT c1 + sizeT c2) o2 with
            | (.done t, oD) => (t, oD)
            | (.descend k2, oD) => completeProgram g f k2 (depth + 1) maxD maxS oD
          (.node k c1 c2 c3, o3)
        else (.node k c1 c2 .pad, o2)
      else (.node k c1 .pad .pad, o1)
    else (.node k .pad .pad .pad, o)

/-- Modelled from the spec: the valid initial productions
    `Node.get_valid_children_types()[0]` used by generate_random (line 82)
    and by the root-mutation branch of mutate (line 120); spec section 3: a
    program is a Strategy chain or a degenerate IT/ITE/ReturnAction. -/
def initialTypes : List SlotTy :=
  [.sKind .strategy, .sKind .it, .sKind .ite, .sKind .returnAction]

/-- `generate_random()` (lines 81-86): draw a random initial production and
    complete it from `initial_depth = 0`. -/
def generateRandomModel (g : Grammar) (fuel maxD maxS : ℕ) (o : List ℕ) :
    STree × List ℕ :=
  let (st, o') := chooseFrom initialTypes o
  match st with
  | .sKind k => completeProgram g fuel k 0 maxD maxS o'
  | other => (instChild other, o')

/-- The number of edges on the deepest node path of a tree (raw values and
    None do not extend a node path). -/
def depthT : STree → ℕ
  | .node _ a b c =>
    let da := match a with | .node _ _ _ _ => depthT a + 1 | _ => 0
    let db := match b with | .node _ _ _ _ => depthT b + 1 | _ => 0
    let dc := match c with | .node _ _ _ _ => depthT c + 1 | _ => 0
    max (max da db) dc
  | _ => 0

/-- A drawn child that is terminal-compatible in the sense of
    get_terminal_node: None, a raw value, or an instance whose class is
    VarFromArray/VarScalar/Constant or has no child slots. -/
def isTerminalSTree : STree → Bool
  | .noneChild => true
  | .leafVal _ => true
  | .pad => true
  | .node k _ _ _ =>
      (match k with
       | .varFromArray => true
       | .varScalar => true
       | .constant => true
       | _ => arity k == 0)

/-- Instantiating a terminal-compatible slot entry gives a
    terminal-compatible child. -/
theorem instChild_terminal (st : SlotTy) (h : isTerminalChoice st = true) :
    isTerminalSTree (instChild st) = true := by
  cases st with
  | sKind k => cases k <;> simp_all [isTerminalChoice, instChild, isTerminalSTree, arity]
  | sVal v => simp [instChild, isTerminalSTree]
  | sNone => simp [instChild, isTerminalSTree]

/-- An element chosen from a non-empty list belongs to it. -/
theorem chooseFrom_mem (l : List SlotTy) (o : List ℕ) (h : l ≠ []) :
    (chooseFrom l o).1 ∈ l := by
  unfold chooseFrom
  have hlen : 0 < l.length := List.length_pos.mpr h
  have hidx : o.headD 0 % l.length < l.length := Nat.mod_lt _ hlen
  rw [List.getD_eq_getElem l SlotTy.sNone hidx]
  exact List.getElem_mem hidx

/-- C7 counterexample: a concrete generate_random run with `maxDepth = 0`
    produces a tree with deepest node path of 3 edges, exceeding the claimed
    `maxDepth + 1 = 1` bound: at depth >= maxDepth the Strategy statement
    slot admits only IT/ITE and the IT condition slot only comparisons, none
    of which is terminal-compatible, so get_terminal_node falls back to a
    random non-terminal child and the recursion descends further. -/
theorem complete_program_depth_counterexample :
    depthT (generateRandomModel
      { arrays := [7], arrayIndexes := [9], scalars := [0], constants := [0] }
      10 0 50 (List.replicate 12 0)).1 = 3 ∧
    0 + 1 < depthT (generateRandomModel
      { arrays := [7], arrayIndexes := [9], scalars := [0], constants := [0] }
      10 0 50 (List.replicate 12 0)).1 := by
  decide

/-- C7 (amended): once the depth or size bound is hit, get_terminal_node
    draws a terminal-compatible child (None, VarScalar/VarFromArray/Constant,
    or a childless variant) for every slot whose grammar-valid types include
    one; a slot with no terminal-compatible option (the Strategy statement
    slot, the IT/ITE condition slots, the IT/ITE body slots) instead receives
    an arbitrary grammar-valid child that is completed one level deeper, so
    generateRandom with maxDepth = d can return a tree whose deepest path
    reaches d + 3 edges, as in the concrete run below. -/
theorem get_terminal_node_c7 :
    (∀ (g : Grammar) (k : NKind) (i : ℕ) (o : List ℕ),
      (∃ st ∈ slotTypes g k i, isTerminalChoice st = true) →
      isTerminalSTree (getTerminalNode g k i o).1 = true) ∧
    depthT (generateRandomModel
      { arrays := [7], arrayIndexes := [9], scalars := [0], constants := [0] }
      10 0 50 (List.replicate 12 0)).1 = 0 + 3 := by
  constructor
  · intro g k i o h
    obtain ⟨st, hmem, hterm⟩ := h
    have hmemf : st ∈ (slotTypes g k i).filter (fun s => isTerminalChoice s) :=
      List.mem_filter.mpr ⟨hmem, hterm⟩
    have hne : (slotTypes g k i).filter (fun s => isTerminalChoice s) ≠ [] :=
      List.ne_nil_of_mem hmemf
    have hlen : 0 < ((slotTypes g k i).filter (fun s => isTerminalChoice s)).length :=
      List.length_pos.mpr hne
    unfold getTerminalNode
    simp only [hlen, if_pos]
    have hchosen := chooseFrom_mem
      ((slotTypes g k i).filter (fun s => isTerminalChoice s)) o hne
    exact instChild_terminal _ (List.of_mem_filter hchosen)
  · decide

/-- C7 witness: the terminal-drawing clause applied to the Strategy
    continuation slot, whose valid types include None. -/
theorem get_terminal_node_c7_witness :
    (∃ st ∈ slotTypes
        { arrays := [7], arrayIndexes := [9], scalars := [0], constants := [0] }
        NKind.strategy 1, isTerminalChoice st = true) ∧
    isTerminalSTree (getTerminalNode
      { arrays := [7], arrayIndexes := [9], scalars := [0], constants := [0] }
      NKind.strategy 1 []).1 = true :=
  ⟨⟨SlotTy.sNone, by decide, by decide⟩,
   get_terminal_node_c7.1 _ NKind.strategy 1 [] ⟨SlotTy.sNone, by decide, by decide⟩⟩

/-- `self.max_depth = 4` set in synthesize (line 201). -/
def maxDepthSA : ℕ := 4

/-- `self.max_size = 50` set in synthesize (line 202). -/
def maxSizeSA : ℕ := 50

/-- The result of one mutate_inner_nodes call: whether a replacement
    happened, the (possibly updated) tree, the traversal counter
    `self.processed_nodes`, and the remaining choice oracle. -/
structure MutRes where
  found : Bool
  tree : STree
  cnt : ℕ
  oracle : List ℕ
  deriving DecidableEq

/-- The replacement child built when the drawn index matches slot `i` of a
    node of kind `k` and current size `psize` (mutate_inner_nodes lines
    97-103): a random grammar-valid entry is instantiated, and when it is a
    node it is completed from `initial_depth = 0` with size budget
    `max_size - p.get_size()`. -/
def makeReplacement (g : Grammar) (fuel : ℕ) (k : NKind) (i psize : ℕ)
    (o : List ℕ) : STree × List ℕ :=
  let (st, o') := chooseFrom (slotTypes g k i) o
  match st with
  | .sKind k2 => completeProgram g fuel k2 0 maxDepthSA (maxSizeSA - psize) o'
  | .sVal v => (.leafVal v, o')
  | .sNone => (.noneChild, o')

/-- `mutate_inner_nodes(p, index)` (lines 88-110): the counter increments
    once on entry of every visited entry (nodes, raw values and None alike);
    a non-Node entry is then left as is; a node walks its child slots in
    order, replacing slot `i` when `index == self.processed_nodes` at that
    point and otherwise recursing into the child, stopping at the first
    replacement. The slot loop is unrolled over the at most three slots. -/
def mutateTree (g : Grammar) (fuel idx : ℕ) : STree → ℕ → List ℕ → MutRes
  | .leafVal v, c, o => ⟨false, .leafVal v, c + 1, o⟩
  | .noneChild, c, o => ⟨false, .noneChild, c + 1, o⟩
  | .pad, c, o => ⟨false, .pad, c + 1, o⟩
  | .node k a b d, c, o =>
    let c0 := c + 1
    if 1 ≤ arity k then
      if idx = c0 then
        let mr := makeReplacement g fuel k 0 (sizeT (.node k a b d)) o
        ⟨true, .node k mr.1 b d, c0, mr.2⟩
      else
        let r1 := mutateTree g fuel idx a c0 o
        if r1.found then ⟨true, .node k r1.tree b d, r1.cnt, r1.oracle⟩
        else if 2 ≤ arity k then
          if idx = r1.cnt then
            let mr := makeReplacement g fuel k 1 (sizeT (.node k a b d)) r1.oracle
            ⟨true, .node k a mr.1 d, r1.cnt, mr.2⟩
          else
            let r2 := mutateTree g fuel idx b r1.cnt r1.oracle
            if r2.found then ⟨true, .node k a r2.tree d, r2.cnt, r2.oracle⟩
            else if 3 ≤ arity k then
              if idx = r2.cnt then
                let mr := makeReplacement g fuel k 2 (sizeT (.node k a b d)) r2.oracle
                ⟨true, .node k a b mr.1, r2.cnt, mr.2⟩
              else
                let r3 := mutateTree g fuel idx d r2.cnt r2.oracle
                if r3.found then ⟨true, .node k a b r3.tree, r3.cnt, r3.oracle⟩
                else ⟨false, .node k a b d, r3.cnt, r3.oracle⟩
            else ⟨false, .node k a b d, r2.cnt, r2.oracle⟩
        else ⟨false, .node k a b d, r1.cnt, r1.oracle⟩
    else ⟨false, .node k a b d, c0, o⟩

/-- The number of traversal entries a full (replacement-free) walk of
    mutate_inner_nodes visits in a tree: one per node, raw value or None,
    over the slots up to each kind's arity. -/
def entriesT : STree → ℕ
  | .node k a b d =>
      1 + (if 1 ≤ arity k then entriesT a else 0) +
        (if 2 ≤ arity k then entriesT b else 0) +
        (if 3 ≤ arity k then entriesT d else 0)
  | _ => 1

/-- `random.randint(0, p.get_size())` (line 114), driven by the oracle head;
    randint is inclusive of both bounds. -/
def drawIndex (p : STree) (o : List ℕ) : ℕ :=
  o.headD 0 % (sizeT p + 1)

/-- `mutate(p)` (lines 112-131) observed at its interface boundary: the pair
    (returned tree, final value of the caller's argument object). With index
    0 the local variable is rebound to a freshly generated program and the
    argument object is untouched; with any other index mutate_inner_nodes
    updates the argument object in place and `p` itself is returned. -/
def mutateModel (g : Grammar) (fuel : ℕ) (p : STree) (o : List ℕ) :
    STree × STree :=
  let idx := drawIndex p o
  let o1 := o.tail
  if idx = 0 then
    let stc := chooseFrom initialTypes o1
    let fresh :=
      match stc.1 with
      | .sKind k => (completeProgram g fuel k 0 maxDepthSA maxSizeSA stc.2).1
      | other => instChild other
    (fresh, p)
  else
    let r := mutateTree g fuel idx p 0 o1
    (r.tree, r.tree)

/-- A small grammar configuration used in the concrete mutation runs. -/
def gEx : Grammar :=
  { arrays := [7], arrayIndexes := [9], scalars := [0], constants := [0] }

/-- A concrete program `return actions[...]`: a ReturnAction holding a
    VarFromArray with raw value children 0 and 1. -/
def raProgram : STree :=
  STree.node NKind.returnAction
    (STree.node NKind.varFromArray (STree.leafVal 0) (STree.leafVal 1) STree.pad)
    STree.pad STree.pad

/-- C8 counterexample: mutate does not operate on a deep copy -- with drawn
    index 1 the ReturnAction's child slot of the caller's own tree is
    replaced in place (mutate_inner_nodes calls `p.replace_child`), so after
    the call the caller's original tree differs from its pre-call value. -/
theorem mutate_no_copy_counterexample :
    (mutateModel gEx 10 raProgram [1, 0, 0, 0, 0]).2 ≠ raProgram := by
  decide

/-- C8 (amended): mutate itself does not copy its input. With drawn index 0
    the local name is rebound to a freshly generated program and the caller's
    tree is untouched; with any other index mutate_inner_nodes updates the
    caller's tree in place and that same tree is returned. The deep copy
    protecting the driver's current program is made by the caller:
    synthesize passes `cp.deepcopy(current)` at its only mutate call site
    (line 275). -/
theorem mutate_inplace_c8 (g : Grammar) (fuel : ℕ) (p : STree) (o : List ℕ) :
    (drawIndex p o = 0 → (mutateModel g fuel p o).2 = p) ∧
    (drawIndex p o ≠ 0 →
      (mutateModel g fuel p o).2 = (mutateModel g fuel p o).1) := by
  constructor <;> intro h <;> simp [mutateModel, h]

/-- C8 witness: the in-place clause evaluated on the concrete ReturnAction
    program with drawn index 1. -/
theorem mutate_inplace_c8_witness :
    drawIndex raProgram [1, 0, 0, 0, 0] ≠ 0 ∧
    (mutateModel gEx 10 raProgram [1, 0, 0, 0, 0]).2 =
      (mutateModel gEx 10 raProgram [1, 0, 0, 0, 0]).1 :=
  ⟨by decide, (mutate_inplace_c8 gEx 10 raProgram [1, 0, 0, 0, 0]).2 (by decide)⟩

/-- C10 counterexample: a non-Node leaf value can be replaced. With drawn
    index 2 (which is within `[1, p.size]` since the program has size 2) the
    traversal matches at the VarFromArray's first slot, which holds the raw
    value 0, and replaces it with a freshly drawn raw value 7, refuting the
    clause that non-Node leaf values are never replaced. -/
theorem mutate_value_replaced_counterexample :
    (mutateModel gEx 10 raProgram [2, 0]).1 =
      STree.node NKind.returnAction
        (STree.node NKind.varFromArray (STree.leafVal 7) (STree.leafVal 1) STree.pad)
        STree.pad STree.pad ∧
    drawIndex raProgram [2, 0] = 2 ∧ sizeT raProgram = 2 := by
  decide

set_option maxRecDepth 4000 in
/-- Helper for the mutation traversal: a mutate_inner_nodes walk that never
    matches the drawn index leaves the tree and the oracle unchanged and
    advances the counter by exactly one per visited entry. -/
theorem mutateTree_nomatch_unchanged (g : Grammar) (fuel idx : ℕ) (t : STree) (c : ℕ)
    (o : List ℕ) :
    (mutateTree g fuel idx t c o).found = false →
    (mutateTree g fuel idx t c o).tree = t ∧
    (mutateTree g fuel idx t c o).cnt = c + entriesT t ∧
    (mutateTree g fuel idx t c o).oracle = o := by
  induction t generalizing c o with
  | leafVal v => intro h; simp [mutateTree, entriesT]
  | noneChild => intro h; simp [mutateTree, entriesT]
  | pad => intro h; simp [mutateTree, entriesT]
  | node k a b d iha ihb ihd =>
    intro h
    simp only [mutateTree] at h ⊢
    by_cases h1 : 1 ≤ arity k
    case neg =>
      have h3 : ¬ 2 ≤ arity k := by omega
      have h5 : ¬ 3 ≤ arity k := by omega
      simp only [if_neg h1] at h ⊢
      refine ⟨by simp, ?_, by simp⟩
      simp [entriesT, h1, h3, h5]
    case pos =>
      simp only [if_pos h1] at h ⊢
      by_cases h2 : idx = c + 1
      case pos =>
        simp [if_pos h2] at h
      case neg =>
        simp only [if_neg h2] at h ⊢
        by_cases hf1 : (mutateTree g fuel idx a (c + 1) o).found = true
        case pos =>
          simp [hf1] at h
        case neg =>
          have hf1f : (mutateTree g fuel idx a (c + 1) o).found = false := by
            simpa using hf1
          obtain ⟨E1, E2, E3⟩ := iha (c + 1) o hf1f
          simp only [hf1f, Bool.false_eq_true, if_false] at h ⊢
          rw [E2, E3] at h ⊢
          by_cases h3 : 2 ≤ arity k
          case neg =>
            have h5 : ¬ 3 ≤ arity k := by omega
            simp only [if_neg h3] at h ⊢
            refine ⟨by simp, ?_, by simp⟩
            simp [entriesT, h1, h3, h5]
            omega
          case pos =>
            simp only [if_pos h3] at h ⊢
            by_cases h4 : idx = c + 1 + entriesT a
            case pos =>
              simp [if_pos h4] at h
            case neg =>
              simp only [if_neg h4] at h ⊢
              by_cases hf2 :
                  (mutateTree g fuel idx b (c + 1 + entriesT a) o).found = true
              case pos =>
                simp [hf2] at h
              case neg =>
                have hf2f :
                    (mutateTree g fuel idx b (c + 1 + entriesT a) o).found = false := by
                  simpa using hf2
                obtain ⟨E4, E5, E6⟩ := ihb (c + 1 + entriesT a) o hf2f
                simp only [hf2f, Bool.false_eq_true, if_false] at h ⊢
                rw [E5, E6] at h ⊢
                by_cases h5 : 3 ≤ arity k
                case neg =>
                  simp only [if_neg h5] at h ⊢
                  refine ⟨by simp, ?_, by simp⟩
                  simp [entriesT, h1, h3, h5]
                  omega
                case pos =>
                  simp only [if_pos h5] at h ⊢
                  by_cases h6 : idx = c + 1 + entriesT a + entriesT b
                  case pos =>
                    simp [if_pos h6] at h
                  case neg =>
                    simp only [if_neg h6] at h ⊢
                    by_cases hf3 :
                        (mutateTree g fuel idx d (c + 1 + entriesT a + entriesT b)
                          o).found = true
                    case pos =>
                      simp [hf3] at h
                    case neg =>
                      have hf3f :
                          (mutateTree g fuel idx d (c + 1 + entriesT a + entriesT b)
                            o).found = false := by
                        simpa using hf3
                      obtain ⟨E7, E8, E9⟩ :=
                        ihd (c + 1 + entriesT a + entriesT b) o hf3f
                      simp only [hf3f, Bool.false_eq_true, if_false] at h ⊢
                      refine ⟨by simp, ?_, by simp [E9]⟩
                      rw [E8]
                      simp [entriesT, h1, h3, h5]
                      omega

/-- C10 (amended): the traversal counter of mutate_inner_nodes increments
    once per visited entry, non-Node leaf values included; when the drawn
    index is matched at a slot check, that slot is replaced whether it holds
    a Node or a raw value (raw values are not skipped, contrary to the
    claim's parenthetical); and when the drawn index is never matched,
    mutate_inner_nodes returns False for every subtree, no child is replaced,
    and mutate returns the input tree unchanged. -/
theorem mutate_traversal_c10 :
    (∀ (g : Grammar) (fuel idx : ℕ) (t : STree) (c : ℕ) (o : List ℕ),
      (mutateTree g fuel idx t c o).found = false →
      (mutateTree g fuel idx t c o).tree = t ∧
      (mutateTree g fuel idx t c o).cnt = c + entriesT t ∧
      (mutateTree g fuel idx t c o).oracle = o) ∧
    (∀ (g : Grammar) (fuel : ℕ) (p : STree) (o : List ℕ),
      drawIndex p o ≠ 0 →
      (mutateTree g fuel (drawIndex p o) p 0 o.tail).found = false →
      (mutateModel g fuel p o).1 = p) := by
  refine ⟨fun g fuel idx t c o => mutateTree_nomatch_unchanged g fuel idx t c o, ?_⟩
  intro g fuel p o hidx hf
  have hu := (mutateTree_nomatch_unchanged g fuel (drawIndex p o) p 0 o.tail hf).1
  simp [mutateModel, hidx, hu]

/-- C10 witness: a no-match traversal of the single-node program
    PlayerPosition with drawn index 1 (its size): the walk returns False,
    visits exactly one entry, and leaves the tree untouched. -/
theorem mutate_traversal_c10_witness :
    (mutateTree gEx 10 1
        (STree.node NKind.playerPosition STree.pad STree.pad STree.pad) 0 []).tree =
      STree.node NKind.playerPosition STree.pad STree.pad STree.pad ∧
    (mutateTree gEx 10 1
        (STree.node NKind.playerPosition STree.pad STree.pad STree.pad) 0 []).cnt =
      0 + entriesT (STree.node NKind.playerPosition STree.pad STree.pad STree.pad) ∧
    (mutateTree gEx 10 1
        (STree.node NKind.playerPosition STree.pad STree.pad STree.pad) 0 []).oracle =
      [] :=
  mutate_traversal_c10.1 gEx 10 1
    (STree.node NKind.playerPosition STree.pad STree.pad STree.pad) 0 [] (by decide)
